import Mathlib

/-!
Verification development for the `content-agent` repository's web-content
acquisition core (address safety guard, robots.txt policy resolver, fetch
cache, page fetcher bounds, content analysis and relevance ranking).

The TypeScript source is shallowly embedded: strings are manipulated as
`List Char` with structural recursion so that every definition evaluates
inside the kernel; network effects (the robots.txt fetch, the page fetch,
HTML/DOM parsing) are modelled by explicit outcome values supplied in an
environment record.  All definitions are translated from the source file
(`isPrivateHostname`, `fetchRobotsAllowed`, `tokenize`, `relevantPassages`,
the `browse_url` tool's `execute` body); JavaScript library primitives
(`net.isIP`, `parseInt`, `Number`, `String.prototype.split`,
`toLowerCase`, `trim`) are modelled for the ASCII inputs this program
feeds them.
-/

namespace ContentAgent

/-- ASCII whitespace class used to model the JavaScript regex `\s` and
`String.prototype.trim` for ASCII text: space, tab, LF, VT, FF, CR. -/
def isWsChar (c : Char) : Bool :=
  c = ' ' || c = '\t' || c = '\n' || c = Char.ofNat 11 || c = Char.ofNat 12 || c = '\r'

/-- Models `String.prototype.toLowerCase` on one ASCII character:
an upper-case letter is shifted down by 32, everything else is kept. -/
def charToLower (c : Char) : Char :=
  if 65 ≤ c.toNat && c.toNat ≤ 90 then Char.ofNat (c.toNat + 32) else c

/-- Models `String.prototype.toLowerCase` (ASCII scope). -/
def jsToLower (l : List Char) : List Char :=
  l.map charToLower

/-- `listStarts l p` models JavaScript `l.startsWith(p)`. -/
def listStarts : List Char → List Char → Bool
  | _, [] => true
  | [], _ :: _ => false
  | c :: cs, p :: ps => c == p && listStarts cs ps

/-- `listEnds l s` models JavaScript `l.endsWith(s)`. -/
def listEnds (l s : List Char) : Bool :=
  listStarts l.reverse s.reverse

/-- Accumulator loop for `splitOnChar` (JavaScript `split(sep)` keeps
every empty piece, including at the boundaries). -/
def splitOnCharGo (sep : Char) : List Char → List Char → List (List Char)
  | [], acc => [acc.reverse]
  | c :: cs, acc =>
    if c = sep then acc.reverse :: splitOnCharGo sep cs []
    else splitOnCharGo sep cs (c :: acc)

/-- Models JavaScript `s.split(sep)` for a one-character separator. -/
def splitOnChar (sep : Char) (l : List Char) : List (List Char) :=
  splitOnCharGo sep l []

/-- Models JavaScript `String.prototype.trim` (ASCII whitespace scope). -/
def trimL (l : List Char) : List Char :=
  ((l.dropWhile isWsChar).reverse.dropWhile isWsChar).reverse

/-- State loop modelling JavaScript `s.split(/\s+/)`: a maximal run of
whitespace separates pieces, and a run touching either end of the string
contributes an empty boundary piece (exactly as the JS regex split does).
`inSep` records whether the previous character was part of a whitespace
run; `acc` is the current piece, reversed. -/
def swGo : List Char → Bool → List Char → List (List Char)
  | [], _, acc => [acc.reverse]
  | c :: cs, inSep, acc =>
    if isWsChar c then
      if inSep then swGo cs true []
      else acc.reverse :: swGo cs true []
    else swGo cs false (c :: acc)

/-- Models JavaScript `s.split(/\s+/)` (ASCII whitespace scope). -/
def jsSplitWs (l : List Char) : List (List Char) :=
  swGo l false []

/-- Counts the maximal nonempty runs of non-whitespace characters: the
number of whitespace-delimited tokens of a string, in the plain sense of
the specification.  `inTok` records whether the previous character was
part of a token. -/
def tcGo : List Char → Bool → Nat
  | [], _ => 0
  | c :: cs, inTok =>
    if isWsChar c then tcGo cs false
    else if inTok then tcGo cs true
    else 1 + tcGo cs true

/-- The number of whitespace-delimited tokens of a character list. -/
def tokenRuns (l : List Char) : Nat :=
  tcGo l false

/-- True when the string begins with a whitespace character. -/
def leadWs : List Char → Bool
  | [] => false
  | c :: _ => isWsChar c

/-- True when the string ends with a whitespace character. -/
def trailWs : List Char → Bool
  | [] => false
  | [c] => isWsChar c
  | _ :: c :: cs => trailWs (c :: cs)

/-- Decimal digit test. -/
def isDigitChar (c : Char) : Bool :=
  48 ≤ c.toNat && c.toNat ≤ 57

/-- Numeric value of a list of decimal digits. -/
def digitsVal (l : List Char) : Nat :=
  l.foldl (fun acc c => acc * 10 + (c.toNat - 48)) 0

/-- Models JavaScript `parseInt(s, 10)`: skip leading whitespace, accept
an optional sign, then read leading decimal digits; `none` models `NaN`
(no digit found). -/
def jsParseInt (l : List Char) : Option Int :=
  let l1 := l.dropWhile isWsChar
  match l1 with
  | '-' :: rest =>
    let ds := rest.takeWhile isDigitChar
    if ds.isEmpty then none else some (-(digitsVal ds : Int))
  | '+' :: rest =>
    let ds := rest.takeWhile isDigitChar
    if ds.isEmpty then none else some (digitsVal ds : Int)
  | _ =>
    let ds := l1.takeWhile isDigitChar
    if ds.isEmpty then none else some (digitsVal ds : Int)

/-- Models JavaScript `Number(s)` on the decimal-integer strings that an
HTTP `Content-Length` header may carry: optional surrounding whitespace
and an optional sign around a digit run; `none` models `NaN`. -/
def jsNumber (l : List Char) : Option Int :=
  let l1 := (l.dropWhile isWsChar).reverse.dropWhile isWsChar |>.reverse
  match l1 with
  | [] => some 0
  | '-' :: rest =>
    if rest ≠ [] && rest.all isDigitChar then some (-(digitsVal rest : Int)) else none
  | '+' :: rest =>
    if rest ≠ [] && rest.all isDigitChar then some (digitsVal rest : Int) else none
  | _ =>
    if l1.all isDigitChar then some (digitsVal l1 : Int) else none

/-- One dotted-quad part as node's `net.isIP` accepts it: one to three
decimal digits, value at most 255, no redundant leading zero. -/
def isIPv4Octet (p : List Char) : Bool :=
  p ≠ [] && p.length ≤ 3 && p.all isDigitChar && digitsVal p ≤ 255 &&
    (p.length = 1 || p.headD '0' ≠ '0')

/-- Dotted-quad IPv4 validity as node's `net.isIP` checks it. -/
def isIPv4 (l : List Char) : Bool :=
  match splitOnChar '.' l with
  | [a, b, c, d] => isIPv4Octet a && isIPv4Octet b && isIPv4Octet c && isIPv4Octet d
  | _ => false

/-- Hexadecimal digit test. -/
def isHexChar (c : Char) : Bool :=
  isDigitChar c || (97 ≤ c.toNat && c.toNat ≤ 102) || (65 ≤ c.toNat && c.toNat ≤ 70)

/-- One IPv6 group: one to four hexadecimal digits. -/
def isIPv6Group (p : List Char) : Bool :=
  p ≠ [] && p.length ≤ 4 && p.all isHexChar

/-- IPv6 validity as node's `net.isIP` checks it, modelled over the
colon-split pieces: an optional trailing dotted-quad counts as two
groups, `::` appears at most once (as adjacent empty pieces, doubled at
the ends), and group counts are 8 exactly without compression or at most
7 with it. -/
def isIPv6 (l : List Char) : Bool :=
  let parts := splitOnChar ':' l
  let parts2 :=
    match parts.getLast? with
    | some last =>
      if last.contains '.' then
        if isIPv4 last then parts.dropLast ++ [['0'], ['0']] else [['?']]
      else parts
    | none => parts
  if parts2.any (fun p => p ≠ [] && !isIPv6Group p) then false
  else
    let n := parts2.length
    let e := (parts2.filter (fun p => p = [])).length
    if e = 0 then n = 8
    else if e = 1 then
      3 ≤ n && n ≤ 8 && parts2.headD [] ≠ [] && parts2.getLastD [] ≠ []
    else if e = 2 then
      n ≤ 8 &&
        ((parts2.headD [] = [] && parts2.tail.headD ['x'] = [] && parts2.getLastD [] ≠ []) ||
         (parts2.getLastD [] = [] && (parts2.dropLast.getLastD ['x']) = [] && parts2.headD [] ≠ []))
    else e = 3 && n = 3 && parts2.all (fun p => p = [])

/-- Models `isIP` from `node:net`: 4 for a valid dotted-quad IPv4
literal, 6 for a valid IPv6 literal, 0 otherwise. -/
def isIP (l : List Char) : Nat :=
  if isIPv4 l then 4 else if isIPv6 l then 6 else 0

/-- Body of `isPrivateHostname` after the initial lower-casing, mirroring
the source line by line: the exact matches and `.local` suffix first,
then for IP literals the `10.` / `127.` / `192.168.` textual checks and
the 172 second-octet range test over `parseInt`-decomposed octets. -/
def privCore (lower : List Char) : Bool :=
  if lower == "localhost".data || lower == "127.0.0.1".data ||
      lower == "0.0.0.0".data || lower == "::1".data ||
      listEnds lower ".local".data then
    true
  else if isIP lower ≠ 0 then
    if listStarts lower "10.".data then true
    else if listStarts lower "127.".data then true
    else if listStarts lower "192.168.".data then true
    else
      match (splitOnChar '.' lower).map jsParseInt with
      | [o0, o1, _, _] =>
        o0 == some 172 &&
          (match o1 with
           | some v => decide (16 ≤ v) && decide (v ≤ 31)
           | none => false)
      | _ => false
  else false

/-- The source's `isPrivateHostname(host)`: lower-cases the hostname and
classifies private/loopback/`.local` space. -/
def isPrivateHostname (host : String) : Bool :=
  privCore (jsToLower host.data)

/-- String-level model of `String.prototype.toLowerCase` (ASCII scope). -/
def strToLower (s : String) : String :=
  ⟨jsToLower s.data⟩

/-- The source's `tokenize(s)`: lower-case, replace every character
outside `[a-z0-9\s]` by a space, split on whitespace runs, keep tokens
longer than two characters. -/
def tokenize (s : String) : List (List Char) :=
  let lowered := jsToLower s.data
  let replaced := lowered.map (fun c =>
    if (97 ≤ c.toNat && c.toNat ≤ 122) || isDigitChar c || isWsChar c then c else ' ')
  (jsSplitWs replaced).filter (fun w => 2 < w.length)

/-- A scored snippet as the ranker returns it. -/
structure Passage where
  snippet : String
  score : Nat
  deriving DecidableEq, Repr

/-- Stable descending insertion used to model the JavaScript
`sort((a, b) => b.score - a.score)` (stable per ES2019).  Under the
`foldr` below the inserted element precedes every element of the
accumulator in the original list, so it is placed after exactly the
elements of strictly greater score and before the first element of
smaller-or-equal score, preserving original order among equal scores. -/
def insertByScoreDesc (x : List Char × Nat) :
    List (List Char × Nat) → List (List Char × Nat)
  | [] => [x]
  | y :: ys => if y.2 ≤ x.2 then x :: y :: ys else y :: insertByScoreDesc x ys

/-- Stable sort by descending score. -/
def sortByScoreDesc (l : List (List Char × Nat)) : List (List Char × Nat) :=
  l.foldr insertByScoreDesc []

/-- Paragraph-splitting state for `splitParas`: inside a paragraph, just
after a single newline (which may yet turn out to start a separator), or
inside a separator run of newlines. -/
inductive SpState where
  | norm
  | pend
  | sep

/-- State loop modelling JavaScript `text.split(/\n{2,}/)`: a maximal
run of two or more newlines separates pieces; a lone newline stays
inside its piece. -/
def spGo : List Char → SpState → List Char → List (List Char)
  | [], st, acc =>
    match st with
    | .pend => [('\n' :: acc).reverse]
    | _ => [acc.reverse]
  | c :: cs, st, acc =>
    match st with
    | .norm => if c = '\n' then spGo cs .pend acc else spGo cs .norm (c :: acc)
    | .pend =>
      if c = '\n' then acc.reverse :: spGo cs .sep []
      else spGo cs .norm (c :: '\n' :: acc)
    | .sep => if c = '\n' then spGo cs .sep [] else spGo cs .norm [c]

/-- Models JavaScript `text.split(/\n{2,}/)`. -/
def splitParas (l : List Char) : List (List Char) :=
  spGo l .norm []

/-- The source's `relevantPassages(text, question, max = 10)`: tokenize
the question into a membership set, split the text into paragraphs on
blank-line runs, trim each and keep those longer than 60 characters,
score each paragraph by how many of its token occurrences appear among
the question's tokens, drop zero scores, sort by descending score
(stable), take the first `max`, and truncate each snippet to 600
characters. -/
def relevantPassages (text question : String) (max : Nat := 10) :
    List Passage :=
  let qTokens := tokenize question
  let paras := ((splitParas text.data).map trimL).filter (fun p => 60 < p.length)
  let scored := paras.map (fun p =>
    (p, (tokenize (⟨p⟩ : String)).foldl
      (fun acc w => acc + (if qTokens.contains w then 1 else 0)) 0))
  let kept := scored.filter (fun pr => 0 < pr.2)
  ((sortByScoreDesc kept).take max).map (fun pr => ⟨⟨pr.1.take 600⟩, pr.2⟩)

/-- Rule kind in a robots.txt group (the source stores the literal
strings `"allow"` / `"disallow"` in a field named `type`). -/
inductive RKind where
  | allow
  | disallow
  deriving DecidableEq, Repr

/-- One robots.txt rule: its kind and its path (the source's
`{ type, path }`). -/
structure RRule where
  kind : RKind
  path : List Char
  deriving DecidableEq, Repr

/-- One robots.txt group: agent names and rules in declaration order
(the source's `{ agents, rules }`). -/
structure RGroup where
  agents : List (List Char)
  rules : List RRule
  deriving DecidableEq, Repr

/-- Strip a `#` comment: the source's `l.replace(/#.*/, "")`, exact for
bodies free of carriage returns (the JS dot does not cross a line
terminator, and line splitting has already consumed the newlines). -/
def stripComment (l : List Char) : List Char :=
  l.takeWhile (fun c => c ≠ '#')

/-- One step of the source's robots.txt group-building loop over the
state `(groups, current)`: a `user-agent` line pushes the current group
only when it already carries at least one rule, then opens a fresh
single-agent group; an `allow`/`disallow` line appends a rule to the
current group, opening an implicit `*` group when none is open; every
other line is ignored, as is a line without a colon or with an empty
key. -/
def robotsLineStep (st : List RGroup × Option RGroup) (line : List Char) :
    List RGroup × Option RGroup :=
  match splitOnChar ':' line with
  | [] => st
  | rawKey :: rest =>
    if rawKey.isEmpty || rest.isEmpty then st
    else
      let key := trimL (jsToLower rawKey)
      let value := trimL (List.intercalate ":".data rest)
      if key == "user-agent".data then
        let groups' :=
          match st.2 with
          | some c => if c.rules ≠ [] then st.1 ++ [c] else st.1
          | none => st.1
        (groups', some ⟨[jsToLower value], []⟩)
      else if key == "allow".data then
        match st.2 with
        | some c => (st.1, some ⟨c.agents, c.rules ++ [⟨.allow, value⟩]⟩)
        | none => (st.1, some ⟨["*".data], [⟨.allow, value⟩]⟩)
      else if key == "disallow".data then
        match st.2 with
        | some c => (st.1, some ⟨c.agents, c.rules ++ [⟨.disallow, value⟩]⟩)
        | none => (st.1, some ⟨["*".data], [⟨.disallow, value⟩]⟩)
      else st

/-- The source's robots.txt body parsing: split on line breaks, strip
comments, trim, drop blank lines, then run the group-building loop and
close the trailing group. -/
def parseRobots (body : List Char) : List RGroup :=
  let lines := ((splitOnChar '\n' body).map
    (fun l => trimL (stripComment l))).filter (fun l => l ≠ [])
  let st := lines.foldl robotsLineStep ([], none)
  match st.2 with
  | some c => st.1 ++ [c]
  | none => st.1

/-- One step of the source's longest-match loop: an empty-path rule is
skipped; a rule whose path prefixes the target path replaces the best
candidate only when strictly longer than it. -/
def ruleStep (path : List Char) (best : Option (RKind × Nat)) (r : RRule) :
    Option (RKind × Nat) :=
  if r.path.isEmpty then best
  else if listStarts path r.path then
    let len := r.path.length
    match best with
    | none => some (r.kind, len)
    | some (_, blen) => if blen < len then some (r.kind, len) else best
  else best

/-- The source's longest-match fold over the applicable group's rules. -/
def bestRule (path : List Char) (rules : List RRule) : Option (RKind × Nat) :=
  rules.foldl (ruleStep path) none

/-- The decision part of `fetchRobotsAllowed` once a 2xx body is in
hand: parse groups, pick the group matching the lower-cased caller agent
or else the `*` group, default the path to `/`, and allow unless the
longest matching rule is a disallow. -/
def robotsDecision (body pathname userAgent : List Char) : Bool :=
  let groups := parseRobots body
  let ua := jsToLower userAgent
  let applicable :=
    (groups.find? (fun g => g.agents.any (fun a => a == ua))).orElse
      (fun _ => groups.find? (fun g => g.agents.any (fun a => a == "*".data)))
  match applicable with
  | none => true
  | some g =>
    let path := if pathname.isEmpty then "/".data else pathname
    match bestRule path g.rules with
    | none => true
    | some (k, _) => k == RKind.allow

/-- Outcome of the robots.txt HTTP fetch, as the environment supplies
it: `failure` covers a network error or the 10-second abort (anything
the source's `try` block would catch), `response` carries the `res.ok`
flag and the body text. -/
inductive RobotsFetchOutcome where
  | failure
  | response (ok : Bool) (body : String)
  deriving DecidableEq, Repr

/-- The source's `fetchRobotsAllowed(target, userAgent = "content-agent")`
over an explicit fetch outcome: any caught failure and any non-2xx
response resolve to `true` (fail-open); a 2xx body goes through the
parser and the longest-match decision.  The function is total, so the
resolver never throws. -/
def fetchRobotsAllowed (o : RobotsFetchOutcome) (pathname : String)
    (userAgent : String := "content-agent") : Bool :=
  match o with
  | .failure => true
  | .response ok body =>
    if !ok then true
    else robotsDecision body.data pathname.data userAgent.data

/-- Counts the whitespace-run separators that JavaScript
`split(/\s+/)` consumes, tracking whether the previous character was
part of a run; the number of pieces of the split is one more than
this. -/
def srGo : List Char → Bool → Nat
  | [], _ => 0
  | c :: cs, inSep =>
    if isWsChar c then
      if inSep then srGo cs true else 1 + srGo cs true
    else srGo cs false

/-- A rule applies to a path when its own path is nonempty and is a
prefix of the target path — the specification's matching condition
(empty-path rules are ignored). -/
def ruleMatches (path : List Char) (r : RRule) : Bool :=
  !r.path.isEmpty && listStarts path r.path

/-- The rules of a group that apply to a path, in declaration order. -/
def matchingRules (path : List Char) (rules : List RRule) : List RRule :=
  rules.filter (ruleMatches path)

/-- The length of the longest applicable path prefix. -/
def maxMatchLen (path : List Char) (rules : List RRule) : Nat :=
  ((matchingRules path rules).map (fun r => r.path.length)).foldl Nat.max 0

/-- Modelled from the spec's words (§4.2 step 5), for comparison with
the source's fold: the first rule, in declaration order, whose
path-prefix match against the target path reaches the maximum length;
rules with an empty path are ignored. -/
def specWinner (path : List Char) (rules : List RRule) : Option RRule :=
  (matchingRules path rules).find? (fun r => r.path.length == maxMatchLen path rules)

/-- Models the JavaScript `x || y` idiom on strings (`""` is falsy). -/
def jsOr (a b : String) : String :=
  if a ≠ "" then a else b

/-- The `Content-Length` pre-check of `browse_url.execute`: a present,
truthy (nonempty) header whose `Number(...)` value exceeds
`5 * 1024 * 1024` rejects the page; an absent or empty header, or one
whose value is `NaN`, passes. -/
def clOversize (contentLength : Option String) : Bool :=
  match contentLength with
  | some cl =>
    cl ≠ "" &&
      (match jsNumber cl.data with
       | some n => decide (5 * 1024 * 1024 < n)
       | none => false)
  | none => false

/-- The source's word count: `mainText ? mainText.split(/\s+/).length : 0`. -/
def wordCountJs (mainText : String) : Nat :=
  if mainText ≠ "" then (jsSplitWs mainText.data).length else 0

/-- The components of the parsed `URL` object that `browse_url.execute`
reads: `protocol` keeps its trailing colon (as `URL.protocol` does),
`href` is `u.toString()`. -/
structure UrlParts where
  protocol : String
  hostname : String
  pathname : String
  href : String
  deriving DecidableEq, Repr

/-- Outcome of the page fetch: `failure` covers a network error or the
10-second abort (`fetch` rejecting), `response` carries `res.ok`, the
status, the `content-length` header (absent or its string value), the
body text, and `res.url`. -/
inductive PageOutcome where
  | failure
  | response (ok : Bool) (status : Nat) (contentLength : Option String)
      (body : String) (finalUrl : String)
  deriving DecidableEq, Repr

/-- A heading entry of the result (tag name and truncated text). -/
structure HeadingInfo where
  tag : String
  text : String
  deriving DecidableEq, Repr

/-- A link entry of the result. -/
structure LinkInfo where
  href : String
  text : String
  rel : String
  nofollow : Bool
  deriving DecidableEq, Repr

/-- The metadata fields `extractMetadata` pulls from the document. -/
structure MetaInfo where
  title : Option String
  description : Option String
  publishedAt : Option String
  author : Option String
  deriving DecidableEq, Repr

/-- What the DOM libraries (`linkedom` parsing, `Readability`, the
heading/link queries) produce from the HTML; these are external
libraries, so the environment supplies their output: the Readability
article text (absent when `reader.parse()` yields none), the body text
content, the metadata, and the already-shaped heading and link lists. -/
structure Extracted where
  articleText : Option String
  bodyText : Option String
  meta : MetaInfo
  headings : List HeadingInfo
  links : List LinkInfo
  deriving DecidableEq, Repr

/-- The `PageAnalysis` record the tool returns. -/
structure PageResult where
  url : String
  finalUrl : String
  meta : MetaInfo
  wordCount : Nat
  headings : List HeadingInfo
  links : List LinkInfo
  excerpt : String
  mainText : String
  passages : List Passage
  deriving DecidableEq, Repr

/-- The errors `browse_url.execute` can throw, one per `throw new
Error(...)` site (plus `parseFailure` for a DOM library throw). -/
inductive BrowseError where
  | unsupportedScheme
  | blockedAddress
  | robotsDisallowed
  | fetchFailed
  | httpStatus (status : Nat)
  | sizeLimit
  | parseFailure
  deriving DecidableEq, Repr

/-- The module-level `pageCache` map, as an association list in
insertion order (key, `at` timestamp, stored data). -/
abbrev Cache := List (String × Int × PageResult)

/-- `pageCache.get(key)`. -/
def cacheGet (key : String) : Cache → Option (Int × PageResult)
  | [] => none
  | (k, v) :: t => if k = key then some v else cacheGet key t

/-- `pageCache.set(key, v)`: replace in place when present, append
otherwise (JS `Map` insertion-order semantics). -/
def cacheSet (key : String) (v : Int × PageResult) : Cache → Cache
  | [] => [(key, v)]
  | (k, w) :: t => if k = key then (key, v) :: t else (k, w) :: cacheSet key v t

/-- Removal of a key, used only to state that a stale entry behaves as
an absent one. -/
def cacheErase (key : String) : Cache → Cache
  | [] => []
  | (k, w) :: t => if k = key then cacheErase key t else (k, w) :: cacheErase key t

/-- `CACHE_TTL_MS = 10 * 60 * 1000`. -/
def CACHE_TTL_MS : Int := 10 * 60 * 1000

/-- The environment of one `browse_url.execute` run: `Date.now()`, the
robots fetch outcome, the page fetch outcome, and the DOM extraction
outcome (`Except.error` models the parser or Readability throwing). -/
structure BrowseEnv where
  now : Int
  robots : RobotsFetchOutcome
  page : PageOutcome
  extract : Except Unit Extracted
  deriving Repr

/-- The output of one run: the thrown error or returned result, the
cache afterwards, and whether the robots request and the page request
were issued (used to state the no-network-on-cache-hit property). -/
structure BrowseOut where
  result : Except BrowseError PageResult
  cache : Cache
  robotsFetched : Bool
  pageFetched : Bool
  deriving Repr

/-- The pipeline from the robots check onward (everything after the
cache lookup), mirroring the source order: robots decision, page fetch,
`res.ok` check, `Content-Length` pre-check (a present, truthy header
whose numeric value exceeds 5 MB rejects before the body is used), the
hard cap on the body actually read, DOM extraction, result assembly,
and the final conditional cache store stamped with the `now` read
before the fetch. -/
def browseFetch (u : UrlParts) (question : Option String) (cache : Bool)
    (env : BrowseEnv) (st : Cache) : BrowseOut :=
  let key := u.href
  if fetchRobotsAllowed env.robots u.pathname = false then
    ⟨.error .robotsDisallowed, st, true, false⟩
  else
    match env.page with
    | .failure => ⟨.error .fetchFailed, st, true, true⟩
    | .response ok status contentLength body finalUrl =>
      if !ok then ⟨.error (.httpStatus status), st, true, true⟩
      else if clOversize contentLength then
        ⟨.error .sizeLimit, st, true, true⟩
      else if 5 * 1024 * 1024 < body.data.length then
        ⟨.error .sizeLimit, st, true, true⟩
      else
        match env.extract with
        | .error _ => ⟨.error .parseFailure, st, true, true⟩
        | .ok ex =>
          let mainText := jsOr (ex.articleText.getD "") (jsOr (ex.bodyText.getD "") "")
          let qVal := (question.getD "")
          let result : PageResult :=
            { url := u.href
              finalUrl := jsOr finalUrl u.href
              meta := ex.meta
              wordCount := wordCountJs mainText
              headings := ex.headings
              links := ex.links
              excerpt := ⟨mainText.data.take 1000⟩
              mainText := mainText
              passages := if qVal ≠ "" then relevantPassages mainText qVal else [] }
          ⟨.ok result,
            (if cache then cacheSet key (env.now, result) st else st),
            true, true⟩

/-- The source's `browse_url.execute({url, question, cache})` over the
explicit environment: scheme check, address guard, cache lookup (a hit
younger than the TTL returns the stored data with no request), then the
fetch pipeline. -/
def browseUrl (u : UrlParts) (question : Option String) (cache : Bool)
    (env : BrowseEnv) (st : Cache) : BrowseOut :=
  if u.protocol ≠ "http:" && u.protocol ≠ "https:" then
    ⟨.error .unsupportedScheme, st, false, false⟩
  else if isPrivateHostname u.hostname then
    ⟨.error .blockedAddress, st, false, false⟩
  else
    let key := u.href
    let cached := if cache then cacheGet key st else none
    match cached with
    | some (ts, data) =>
      if env.now - ts < CACHE_TTL_MS then ⟨.ok data, st, false, false⟩
      else browseFetch u question cache env st
    | none => browseFetch u question cache env st

/-- Shared fixture: empty metadata. -/
def sampleMeta : MetaInfo :=
  ⟨none, none, none, none⟩

/-- Shared fixture: a stored analysis result used to populate caches in
witnesses. -/
def samplePage : PageResult :=
  ⟨"http://example.com/", "http://example.com/", sampleMeta, 2, [], [],
    "hello world", "hello world", []⟩

/-- Shared fixture: a parsed URL for `http://example.com/`. -/
def sampleU : UrlParts :=
  ⟨"http:", "example.com", "/", "http://example.com/"⟩

/-- Shared fixture: an extraction outcome with a short article text. -/
def sampleExtract : Extracted :=
  ⟨some "hello world", some "hello world", sampleMeta, [], []⟩

/-- Shared fixture: an environment whose page fetch succeeds with a
small HTML body. -/
def sampleEnv : BrowseEnv :=
  ⟨1000000000, .failure,
    .response true 200 none "<html></html>" "http://example.com/",
    .ok sampleExtract⟩

/-- Shared fixture: a body one byte past the 5 MB cap. -/
def bigBody : String :=
  ⟨List.replicate (5 * 1024 * 1024 + 1) 'a'⟩

end ContentAgent

namespace ContentAgent

/-- The fetch stage can fail for many reasons, but a blocked-address
error is raised only by the guard that runs before it. -/
theorem browseFetch_result_ne_blocked (u : UrlParts) (q : Option String)
    (c : Bool) (env : BrowseEnv) (st : Cache) :
    (browseFetch u q c env st).result ≠ .error .blockedAddress := by
  unfold browseFetch
  split
  · simp
  · split
    · simp
    · split
      · simp
      · split
        · simp
        · split
          · simp
          · split
            · simp
            · simp

end ContentAgent

namespace ContentAgent

/-- Claim C1 (counterexample): the guard does not classify the
link-local literal `169.254.1.1` as forbidden, contrary to the claim
that every IPv4 literal in `169.254.0.0/16` is refused. -/
theorem c1_counterexample : isPrivateHostname "169.254.1.1" = false := by
  decide

/-- A character outside the upper-case range is left unchanged. -/
theorem charToLower_eq_self {c : Char} (h : ¬(65 ≤ c.toNat ∧ c.toNat ≤ 90)) :
    charToLower c = c := by
  unfold charToLower
  rw [if_neg (by simpa [Bool.and_eq_true, decide_eq_true_eq] using h)]

/-- A decimal digit or a dot is outside the upper-case letter range, so
the lower-casing of the guard leaves it unchanged. -/
theorem charToLower_digit_or_dot {c : Char}
    (h : isDigitChar c = true ∨ c = '.') : charToLower c = c := by
  apply charToLower_eq_self
  rcases h with hd | rfl
  · unfold isDigitChar at hd
    rcases Bool.and_eq_true_iff.mp hd with ⟨h1, h2⟩
    have h1' := of_decide_eq_true h1
    have h2' := of_decide_eq_true h2
    omega
  · decide

/-- Mapping `charToLower` over a list of characters it fixes pointwise
fixes the list. -/
theorem map_charToLower_id :
    ∀ (l : List Char), (∀ ch ∈ l, charToLower ch = ch) →
      List.map charToLower l = l
  | [], _ => rfl
  | c :: cs, h => by
    rw [List.map_cons, h c (List.mem_cons_self c cs),
      map_charToLower_id cs (fun x hx => h x (List.mem_cons_of_mem c hx))]

/-- The guard classifies no `169.254.`-prefixed hostname made of
decimal digits and dots as forbidden: it is none of the four exact
matches, it does not end in `.local`, it matches none of the `10.` /
`127.` / `192.168.` prefixes, and its first `parseInt` octet is 169,
not 172. -/
theorem isPrivateHostname_link_local (t : List Char)
    (ht : ∀ ch ∈ t, isDigitChar ch = true ∨ ch = '.') :
    isPrivateHostname ⟨"169.254.".data ++ t⟩ = false := by
  show privCore (jsToLower ("169.254.".data ++ t)) = false
  have hfix : jsToLower ("169.254.".data ++ t) = "169.254.".data ++ t := by
    unfold jsToLower
    rw [List.map_append,
      map_charToLower_id t (fun x hx => charToLower_digit_or_dot (ht x hx)),
      show List.map charToLower ("169.254.".data) = "169.254.".data from rfl]
  rw [hfix]
  have e1 : (("169.254.".data ++ t) == "localhost".data) = false := by rfl
  have e2 : (("169.254.".data ++ t) == "127.0.0.1".data) = false := by rfl
  have e3 : (("169.254.".data ++ t) == "0.0.0.0".data) = false := by rfl
  have e4 : (("169.254.".data ++ t) == "::1".data) = false := by rfl
  have e5 : listEnds ("169.254.".data ++ t) ".local".data = false := by
    unfold listEnds
    rw [List.reverse_append]
    rw [show ("169.254.".data.reverse) = ['.', '4', '5', '2', '.', '9', '6', '1'] from rfl,
        show (".local".data.reverse) = ['l', 'a', 'c', 'o', 'l', '.'] from rfl]
    cases hrv : t.reverse with
    | nil => rfl
    | cons x xs =>
      have hx : x ∈ t := by
        rw [← List.mem_reverse, hrv]
        exact List.mem_cons_self x xs
      have hxl : (x == 'l') = false := by
        rcases ht x hx with hd | rfl
        · rw [beq_eq_false_iff_ne]
          intro he
          rw [he] at hd
          exact absurd hd (by decide)
        · decide
      rw [List.cons_append]
      simp only [listStarts]
      rw [hxl, Bool.false_and]
  unfold privCore
  rw [if_neg (by rw [e1, e2, e3, e4, e5]; decide)]
  by_cases hip : isIP ("169.254.".data ++ t) ≠ 0
  · rw [if_pos hip]
    have s1 : listStarts ("169.254.".data ++ t) "10.".data = false := by rfl
    have s2 : listStarts ("169.254.".data ++ t) "127.".data = false := by rfl
    have s3 : listStarts ("169.254.".data ++ t) "192.168.".data = false := by rfl
    rw [if_neg (by rw [s1]; decide), if_neg (by rw [s2]; decide),
      if_neg (by rw [s3]; decide)]
    have hsplit : splitOnChar '.' ("169.254.".data ++ t) =
        ['1', '6', '9'] :: ['2', '5', '4'] :: splitOnCharGo '.' t [] := by rfl
    rw [hsplit, List.map_cons, List.map_cons]
    generalize List.map jsParseInt (splitOnCharGo '.' t []) = rest2
    rcases rest2 with _ | ⟨a, _ | ⟨b, _ | ⟨c3, l4⟩⟩⟩ <;> rfl
  · rw [if_neg hip]

/-- When the guard classifies the hostname as not private, the
operation can fail in other ways but never with the blocked-address
error. -/
theorem browseUrl_guard_pass_ne_blocked (u : UrlParts) (q : Option String)
    (c : Bool) (env : BrowseEnv) (st : Cache)
    (hp : isPrivateHostname u.hostname = false) :
    (browseUrl u q c env st).result ≠ .error .blockedAddress := by
  unfold browseUrl
  split
  · simp
  · rw [if_neg (by simp [hp])]
    dsimp only
    split
    · split
      · simp
      · exact browseFetch_result_ne_blocked _ _ _ _ _
    · exact browseFetch_result_ne_blocked _ _ _ _ _

/-- Claim C1 (amended): the guard does not refuse link-local space.
`isPrivateHostname` returns `false` on every hostname that starts with
`169.254.` and otherwise consists of decimal digits and dots — in
particular on every IPv4 literal `169.254.A.B` of `169.254.0.0/16`,
such as `169.254.1.1` — and whenever the guard classifies a hostname
`false`, `browse_url` does not terminate with the blocked-address
error, so no link-local literal is stopped by the guard. -/
theorem c1_link_local_not_blocked :
    (∀ t : List Char, (∀ ch ∈ t, isDigitChar ch = true ∨ ch = '.') →
      isPrivateHostname ⟨"169.254.".data ++ t⟩ = false) ∧
    (∀ a b : List Char, (∀ ch ∈ a, isDigitChar ch = true) →
      (∀ ch ∈ b, isDigitChar ch = true) →
      isPrivateHostname ⟨"169.254.".data ++ (a ++ '.' :: b)⟩ = false) ∧
    isPrivateHostname "169.254.1.1" = false ∧
    (∀ (u : UrlParts) (q : Option String) (c : Bool) (env : BrowseEnv)
       (st : Cache),
      isPrivateHostname u.hostname = false →
      (browseUrl u q c env st).result ≠ .error .blockedAddress) := by
  refine ⟨isPrivateHostname_link_local, ?_, by decide,
    browseUrl_guard_pass_ne_blocked⟩
  intro a b ha hb
  apply isPrivateHostname_link_local
  intro ch hch
  rcases List.mem_append.mp hch with h | h
  · exact Or.inl (ha ch h)
  · rcases List.mem_cons.mp h with rfl | h
    · exact Or.inr rfl
    · exact Or.inl (hb ch h)

/-- Witness for the amended C1 at concrete inputs: the digit-and-dot
tail `1.1` yields the unblocked literal `169.254.1.1`, and a run on
that URL does not stop at the blocked-address check. -/
theorem c1_link_local_not_blocked_witness :
    isPrivateHostname ⟨"169.254.".data ++ ['1', '.', '1']⟩ = false ∧
    (browseUrl ⟨"http:", "169.254.1.1", "/", "http://169.254.1.1/"⟩
      none true sampleEnv []).result ≠ .error .blockedAddress :=
  ⟨c1_link_local_not_blocked.1 ['1', '.', '1'] (by decide),
   c1_link_local_not_blocked.2.2.2
     ⟨"http:", "169.254.1.1", "/", "http://169.254.1.1/"⟩
     none true sampleEnv [] (by decide)⟩

/-- Claim C2: the guard classifies each of `localhost`, `127.0.0.1`,
`0.0.0.0`, `::1`, `foo.local`, `10.1.2.3`, `172.20.5.5`, `192.168.1.1`
as forbidden and neither `8.8.8.8` nor `example.com`; the `172` block
decision follows the second-octet range 16–31, as the boundary literals
`172.15.255.255`, `172.16.0.1`, `172.31.255.255`, `172.32.0.1` show. -/
theorem c2_guard_classification :
    isPrivateHostname "localhost" = true ∧
    isPrivateHostname "127.0.0.1" = true ∧
    isPrivateHostname "0.0.0.0" = true ∧
    isPrivateHostname "::1" = true ∧
    isPrivateHostname "foo.local" = true ∧
    isPrivateHostname "10.1.2.3" = true ∧
    isPrivateHostname "172.20.5.5" = true ∧
    isPrivateHostname "192.168.1.1" = true ∧
    isPrivateHostname "8.8.8.8" = false ∧
    isPrivateHostname "example.com" = false ∧
    isPrivateHostname "172.15.255.255" = false ∧
    isPrivateHostname "172.16.0.1" = true ∧
    isPrivateHostname "172.31.255.255" = true ∧
    isPrivateHostname "172.32.0.1" = false := by
  decide

/-- Claim C3 (counterexample): on the specification's own example the
ranker does not return exactly one passage. -/
theorem c3_counterexample :
    (relevantPassages "Para one about caching.\n\nPara two about routers."
      "caching" 10).length ≠ 1 := by
  decide

/-- Claim C3 (amended): on that input the ranker returns no passage at
all, because each of the two paragraphs is 23 characters long and the
ranker keeps only paragraphs longer than 60 characters. -/
theorem c3_rank_example_empty :
    relevantPassages "Para one about caching.\n\nPara two about routers."
      "caching" 10 = [] ∧
    (splitParas ("Para one about caching.\n\nPara two about routers.").data).map
      (fun p => (trimL p).length) = [23, 23] := by
  constructor
  · decide
  · decide

/-- Claim C4: the robots policy resolver never throws (it is a total
function into `Bool`), and on any failure — a caught network error or
timeout, or a non-2xx response — it resolves to `true`, fail-open. -/
theorem c4_robots_fail_open :
    ∀ (o : RobotsFetchOutcome) (pathname userAgent : String),
      (o = .failure ∨ ∃ body, o = .response false body) →
      fetchRobotsAllowed o pathname userAgent = true := by
  intro o pathname userAgent h
  rcases h with h | ⟨body, h⟩ <;> subst h <;> rfl

/-- `Nat.max` takes its left argument when that one is larger. -/
theorem natMax_eq_left {a b : Nat} (h : b ≤ a) : Nat.max a b = a :=
  Nat.max_eq_left h

/-- `Nat.max` takes its right argument when that one is larger. -/
theorem natMax_eq_right {a b : Nat} (h : a ≤ b) : Nat.max a b = b :=
  Nat.max_eq_right h

/-- The seed of a left fold by `Nat.max` bounds the result from below. -/
theorem le_foldlMax_self (l : List Nat) (a : Nat) : a ≤ l.foldl Nat.max a := by
  induction l generalizing a with
  | nil => exact Nat.le_refl a
  | cons x l ih =>
    simp only [List.foldl_cons]
    exact Nat.le_trans (Nat.le_max_left a x) (ih (Nat.max a x))

/-- Every member of the list bounds a left fold by `Nat.max` from below. -/
theorem le_foldlMax_of_mem {l : List Nat} {x : Nat} (a : Nat) (hx : x ∈ l) :
    x ≤ l.foldl Nat.max a := by
  induction l generalizing a with
  | nil => cases hx
  | cons y l ih =>
    simp only [List.foldl_cons]
    rcases List.mem_cons.mp hx with h | h
    · subst h
      exact Nat.le_trans (Nat.le_max_right a x) (le_foldlMax_self l (Nat.max a x))
    · exact ih (Nat.max a y) h

/-- A left fold by `Nat.max` yields its seed or one of the members. -/
theorem foldlMax_eq_or_mem (l : List Nat) (a : Nat) :
    l.foldl Nat.max a = a ∨ l.foldl Nat.max a ∈ l := by
  induction l generalizing a with
  | nil => exact Or.inl rfl
  | cons x l ih =>
    simp only [List.foldl_cons]
    rcases ih (Nat.max a x) with h | h
    · rw [h]
      rcases Nat.le_total a x with hax | hxa
      · right
        rw [natMax_eq_right hax]
        exact List.mem_cons_self x l
      · left
        exact natMax_eq_left hxa
    · exact Or.inr (List.mem_cons_of_mem x h)

/-- A matching rule has a nonempty path. -/
theorem matching_path_ne_nil {path : List Char} {r : RRule}
    (h : ruleMatches path r = true) : r.path ≠ [] := by
  unfold ruleMatches at h
  rcases Bool.and_eq_true_iff.mp h with ⟨h1, _⟩
  simpa using h1

/-- Every applicable rule's path length is bounded by `maxMatchLen`. -/
theorem matching_len_le_max {path : List Char} {rules : List RRule} {r : RRule}
    (hr : r ∈ matchingRules path rules) :
    r.path.length ≤ maxMatchLen path rules :=
  le_foldlMax_of_mem 0 (List.mem_map_of_mem _ hr)

/-- If any rule applies, some applicable rule attains `maxMatchLen`. -/
theorem maxMatchLen_attained {path : List Char} {rules : List RRule}
    (h : matchingRules path rules ≠ []) :
    ∃ r ∈ matchingRules path rules, r.path.length = maxMatchLen path rules := by
  rcases foldlMax_eq_or_mem ((matchingRules path rules).map fun r => r.path.length) 0
    with h0 | hm
  · exfalso
    obtain ⟨r, hr⟩ := List.exists_mem_of_ne_nil _ h
    have hle := le_foldlMax_of_mem (l := (matchingRules path rules).map fun r => r.path.length)
      0 (List.mem_map_of_mem _ hr)
    rw [h0] at hle
    have hne : r.path ≠ [] := matching_path_ne_nil (List.of_mem_filter hr)
    exact hne (List.eq_nil_of_length_eq_zero (Nat.le_zero.mp hle))
  · obtain ⟨r, hr, hlen⟩ := List.mem_map.mp hm
    exact ⟨r, hr, hlen⟩

/-- An empty `specWinner` means no rule applies at all. -/
theorem specWinner_eq_none {path : List Char} {rules : List RRule}
    (h : specWinner path rules = none) : matchingRules path rules = [] := by
  by_contra hne
  obtain ⟨r, hr, hlen⟩ := maxMatchLen_attained hne
  have := List.find?_eq_none.mp h r hr
  simp [hlen] at this

/-- A rule that does not apply leaves the fold state unchanged. -/
theorem ruleStep_no_match {path : List Char} {r : RRule}
    (hm : ruleMatches path r = false) (b : Option (RKind × Nat)) :
    ruleStep path b r = b := by
  unfold ruleMatches at hm
  by_cases he : r.path.isEmpty
  · simp [ruleStep, he]
  · have hs : listStarts path r.path = false := by
      revert hm
      simp [he]
    simp [ruleStep, he, hs]

/-- Appending a rule extends the applicable set by it exactly when it
matches. -/
theorem matchingRules_append (path : List Char) (rs : List RRule) (r : RRule) :
    matchingRules path (rs ++ [r]) =
      matchingRules path rs ++ (if ruleMatches path r then [r] else []) := by
  unfold matchingRules
  rw [List.filter_append]
  by_cases hm : ruleMatches path r <;> simp [hm]

/-- `maxMatchLen` after appending a matching rule. -/
theorem maxMatchLen_append_pos {path : List Char} {r : RRule} (rs : List RRule)
    (hm : ruleMatches path r = true) :
    maxMatchLen path (rs ++ [r]) = Nat.max (maxMatchLen path rs) r.path.length := by
  unfold maxMatchLen
  rw [matchingRules_append, hm]
  simp [List.foldl_append]

/-- `maxMatchLen` after appending a non-matching rule. -/
theorem maxMatchLen_append_neg {path : List Char} {r : RRule} (rs : List RRule)
    (hm : ruleMatches path r = false) :
    maxMatchLen path (rs ++ [r]) = maxMatchLen path rs := by
  unfold maxMatchLen
  rw [matchingRules_append, hm]
  simp

/-- The source's left fold agrees with the specification's rule choice:
the winning rule is the first one, in declaration order, whose nonempty
path-prefix match reaches the maximum length. -/
theorem bestRule_eq_specWinner (path : List Char) (rules : List RRule) :
    bestRule path rules =
      (specWinner path rules).map (fun r => (r.kind, r.path.length)) := by
  induction rules using List.reverseRecOn with
  | nil => rfl
  | append_singleton rs r ih =>
    unfold bestRule at ih ⊢
    rw [List.foldl_append, List.foldl_cons, List.foldl_nil, ih]
    by_cases hm : ruleMatches path r = true
    · have hne : r.path.isEmpty = false := by
        have := matching_path_ne_nil hm
        simpa using this
      have hst : listStarts path r.path = true := by
        unfold ruleMatches at hm
        rcases Bool.and_eq_true_iff.mp hm with ⟨_, h2⟩
        exact h2
      cases hw : specWinner path rs with
      | none =>
        have hmr : matchingRules path rs = [] := specWinner_eq_none hw
        have hsw : specWinner path (rs ++ [r]) = some r := by
          unfold specWinner
          rw [matchingRules_append, hm, if_pos rfl, hmr, List.nil_append]
          have hmax : maxMatchLen path (rs ++ [r]) = r.path.length := by
            rw [maxMatchLen_append_pos rs hm]
            have h0 : maxMatchLen path rs = 0 := by
              unfold maxMatchLen
              rw [hmr]
              rfl
            rw [h0]
            exact natMax_eq_right (Nat.zero_le _)
          rw [hmax]
          simp [List.find?]
        rw [hsw]
        simp [ruleStep, hne, hst]
      | some w =>
        have hw_mem : w ∈ matchingRules path rs :=
          List.mem_of_find?_eq_some hw
        have hw_len : w.path.length = maxMatchLen path rs := by
          have := List.find?_some hw
          simpa using this
        by_cases hlt : w.path.length < r.path.length
        · have hmax : maxMatchLen path (rs ++ [r]) = r.path.length := by
            rw [maxMatchLen_append_pos rs hm]
            exact natMax_eq_right (by omega)
          have hsw : specWinner path (rs ++ [r]) = some r := by
            unfold specWinner
            rw [matchingRules_append, hm, if_pos rfl, hmax, List.find?_append]
            have hnone : (matchingRules path rs).find?
                (fun x => x.path.length == r.path.length) = none := by
              apply List.find?_eq_none.mpr
              intro x hx
              have hle : x.path.length ≤ maxMatchLen path rs := matching_len_le_max hx
              simp only [beq_iff_eq]
              omega
            rw [hnone]
            simp [List.find?]
          rw [hsw]
          simp [ruleStep, hne, hst, hlt]
        · have hmax : maxMatchLen path (rs ++ [r]) = maxMatchLen path rs := by
            rw [maxMatchLen_append_pos rs hm]
            exact natMax_eq_left (by omega)
          have hsw : specWinner path (rs ++ [r]) = some w := by
            unfold specWinner
            rw [matchingRules_append, hm, if_pos rfl, hmax, List.find?_append]
            unfold specWinner at hw
            rw [hw]
            rfl
          rw [hsw]
          simp [ruleStep, hne, hst, hlt]
    · have hm' : ruleMatches path r = false := by
        revert hm
        cases ruleMatches path r <;> simp
      rw [ruleStep_no_match hm']
      have hsw : specWinner path (rs ++ [r]) = specWinner path rs := by
        unfold specWinner
        rw [matchingRules_append, hm', maxMatchLen_append_neg rs hm']
        simp
      rw [hsw]

/-- Claim C5: within the applicable group, the rule with the longest
path-prefix match wins, with ties broken by the first rule reaching the
maximum length in declaration order, and empty-path rules ignored (the
source's fold equals the specification's choice function); on the
example group `User-agent: *` with `Disallow: /private` and
`Allow: /private/public`, the path `/private/secret` is disallowed,
`/private/public/x` is allowed, and `/other` is allowed. -/
theorem c5_longest_prefix_rule :
    (∀ (path : List Char) (rules : List RRule),
      bestRule path rules =
        (specWinner path rules).map (fun r => (r.kind, r.path.length))) ∧
    fetchRobotsAllowed
      (.response true "User-agent: *\nDisallow: /private\nAllow: /private/public")
      "/private/secret" = false ∧
    fetchRobotsAllowed
      (.response true "User-agent: *\nDisallow: /private\nAllow: /private/public")
      "/private/public/x" = true ∧
    fetchRobotsAllowed
      (.response true "User-agent: *\nDisallow: /private\nAllow: /private/public")
      "/other" = true :=
  ⟨bestRule_eq_specWinner, by decide, by decide, by decide⟩

/-- Witness for C4 at concrete inputs: both a fetch failure and a 404
body resolve to allowed. -/
theorem c4_robots_fail_open_witness :
    fetchRobotsAllowed .failure "/private" "content-agent" = true ∧
    fetchRobotsAllowed (.response false "User-agent: *\nDisallow: /") "/private"
      "content-agent" = true :=
  ⟨c4_robots_fail_open .failure "/private" "content-agent" (Or.inl rfl),
   c4_robots_fail_open (.response false "User-agent: *\nDisallow: /") "/private"
     "content-agent" (Or.inr ⟨"User-agent: *\nDisallow: /", rfl⟩)⟩

end ContentAgent


namespace ContentAgent

/-- A successful fetch-stage run sets the page-fetched flag and stores
the returned result under the URL key exactly when caching was
requested. -/
theorem browseFetch_ok_shape (u : UrlParts) (q : Option String) (c : Bool)
    (env : BrowseEnv) (st : Cache) (r : PageResult) :
    (browseFetch u q c env st).result = .ok r →
    (browseFetch u q c env st).pageFetched = true ∧
    (browseFetch u q c env st).cache =
      (if c then cacheSet u.href (env.now, r) st else st) := by
  unfold browseFetch
  split
  · intro h
    simp at h
  · split
    · intro h
      simp at h
    · split
      · intro h
        simp at h
      · split
        · intro h
          simp at h
        · split
          · intro h
            simp at h
          · split
            · intro h
              simp at h
            · intro h
              simp only [Except.ok.injEq] at h
              subst h
              exact ⟨rfl, rfl⟩

/-- The fetch stage either leaves the cache alone or, with caching
requested, stores exactly its successful result under the URL key. -/
theorem browseFetch_cache_cases (u : UrlParts) (q : Option String) (c : Bool)
    (env : BrowseEnv) (st : Cache) :
    (browseFetch u q c env st).cache = st ∨
    (c = true ∧ ∃ r, (browseFetch u q c env st).result = .ok r ∧
      (browseFetch u q c env st).cache = cacheSet u.href (env.now, r) st) := by
  unfold browseFetch
  split
  · exact Or.inl rfl
  · split
    · exact Or.inl rfl
    · split
      · exact Or.inl rfl
      · split
        · exact Or.inl rfl
        · split
          · exact Or.inl rfl
          · split
            · exact Or.inl rfl
            · cases c with
              | false => exact Or.inl rfl
              | true => exact Or.inr ⟨rfl, _, rfl, rfl⟩

/-- The whole operation either leaves the cache alone or, with caching
requested, stores exactly its successful result under the URL key. -/
theorem browseUrl_cache_cases (u : UrlParts) (q : Option String) (c : Bool)
    (env : BrowseEnv) (st : Cache) :
    (browseUrl u q c env st).cache = st ∨
    (c = true ∧ ∃ r, (browseUrl u q c env st).result = .ok r ∧
      (browseUrl u q c env st).cache = cacheSet u.href (env.now, r) st) := by
  unfold browseUrl
  split
  · exact Or.inl rfl
  · split
    · exact Or.inl rfl
    · dsimp only
      split
      · split
        · exact Or.inl rfl
        · exact browseFetch_cache_cases u q c env st
      · exact browseFetch_cache_cases u q c env st

/-- Claim C6: the 5 MB cap is enforced both ways.  First, a present
`Content-Length` header declaring more than 5 MB rejects the page with
the size-limit error for every possible body — the body plays no part,
which is the model-level statement that the page is rejected before its
body is read.  Second, independently of the header pre-check, a body
actually read that exceeds 5 MB raises the same size-limit error. -/
theorem c6_size_cap :
    (∀ (u : UrlParts) (q : Option String) (c : Bool) (env : BrowseEnv)
       (st : Cache) (status : Nat) (cl body finalUrl : String) (n : Int),
      fetchRobotsAllowed env.robots u.pathname = true →
      env.page = .response true status (some cl) body finalUrl →
      jsNumber cl.data = some n →
      (5 * 1024 * 1024 : Int) < n →
      (browseFetch u q c env st).result = .error .sizeLimit) ∧
    (∀ (u : UrlParts) (q : Option String) (c : Bool) (env : BrowseEnv)
       (st : Cache) (status : Nat) (clOpt : Option String) (body finalUrl : String),
      fetchRobotsAllowed env.robots u.pathname = true →
      env.page = .response true status clOpt body finalUrl →
      clOversize clOpt = false →
      5 * 1024 * 1024 < body.data.length →
      (browseFetch u q c env st).result = .error .sizeLimit) := by
  constructor
  · intro u q c env st status cl body finalUrl n hrob hpage hnum hgt
    have hcl : cl ≠ "" := by
      intro hceq
      subst hceq
      have h0 : jsNumber ("" : String).data = some 0 := rfl
      rw [h0] at hnum
      simp only [Option.some.injEq] at hnum
      omega
    have hclo : clOversize (some cl) = true := by
      unfold clOversize
      dsimp only
      rw [hnum]
      dsimp only
      rw [decide_eq_true hcl, decide_eq_true hgt]
      rfl
    unfold browseFetch
    rw [hpage, if_neg (by simp [hrob])]
    dsimp only
    rw [if_pos hclo]
    rw [if_neg (show ¬((!true) = true) by simp)]
  · intro u q c env st status clOpt body finalUrl hrob hpage hclo hlen
    unfold browseFetch
    rw [hpage, if_neg (by simp [hrob])]
    dsimp only
    rw [if_neg (show ¬((!true) = true) by simp)]
    rw [if_neg (show ¬(clOversize clOpt = true) by simp [hclo])]
    rw [if_pos hlen]

/-- Witness for C6: a `Content-Length` of 6 MB (6291456) rejects with
the size-limit error for an empty body, and a body one byte past 5 MB
rejects the same way without any `Content-Length` header. -/
theorem c6_size_cap_witness :
    (browseFetch sampleU none false
      ⟨0, .failure, .response true 200 (some "6291456") "" "", .ok sampleExtract⟩
      []).result = .error .sizeLimit ∧
    (browseFetch sampleU none false
      ⟨0, .failure, .response true 200 none bigBody "", .ok sampleExtract⟩
      []).result = .error .sizeLimit := by
  constructor
  · exact c6_size_cap.1 sampleU none false _ [] 200 "6291456" "" "" 6291456
      rfl rfl (by decide) (by decide)
  · refine c6_size_cap.2 sampleU none false _ [] 200 none bigBody "" rfl rfl rfl ?_
    have hlen : bigBody.data.length = 5 * 1024 * 1024 + 1 := by
      show (List.replicate (5 * 1024 * 1024 + 1) 'a').length = _
      rw [List.length_replicate]
    omega

/-- Claim C7: with caching enabled, a cache hit younger than 600000 ms
returns the stored analysis unchanged, leaves the cache as it was, and
issues neither the robots request nor the page request; a hit at least
600000 ms old behaves exactly as an absent entry (the run equals the
fetch pipeline run), and when that pipeline succeeds it performed the
page fetch and replaced the entry wholesale with the fresh result. -/
theorem c7_cache_ttl :
    (∀ (u : UrlParts) (q : Option String) (env : BrowseEnv) (st : Cache)
       (ts : Int) (data : PageResult),
      (u.protocol = "http:" ∨ u.protocol = "https:") →
      isPrivateHostname u.hostname = false →
      cacheGet u.href st = some (ts, data) →
      env.now - ts < CACHE_TTL_MS →
      browseUrl u q true env st =
        ⟨.ok data, st, false, false⟩) ∧
    (∀ (u : UrlParts) (q : Option String) (env : BrowseEnv) (st : Cache)
       (ts : Int) (data : PageResult),
      (u.protocol = "http:" ∨ u.protocol = "https:") →
      isPrivateHostname u.hostname = false →
      cacheGet u.href st = some (ts, data) →
      CACHE_TTL_MS ≤ env.now - ts →
      browseUrl u q true env st = browseFetch u q true env st ∧
      ∀ r, (browseFetch u q true env st).result = .ok r →
        (browseFetch u q true env st).pageFetched = true ∧
        (browseFetch u q true env st).cache = cacheSet u.href (env.now, r) st) := by
  constructor
  · intro u q env st ts data hs hp hget hfresh
    unfold browseUrl
    rw [if_neg (by rcases hs with h | h <;> simp [h]), if_neg (by simp [hp])]
    simp [hget, hfresh]
  · intro u q env st ts data hs hp hget hstale
    constructor
    · unfold browseUrl
      rw [if_neg (by rcases hs with h | h <;> simp [h]), if_neg (by simp [hp])]
      have hnf : ¬(env.now - ts < CACHE_TTL_MS) := by omega
      simp [hget, hnf]
    · intro r hok
      have := browseFetch_ok_shape u q true env st r hok
      simpa using this

/-- Witness for C7: with a cached entry stamped 0, a run at time 1000
returns the stored result with no request, and a run at time 1000000000
equals the fetch pipeline run. -/
theorem c7_cache_ttl_witness :
    browseUrl sampleU none true ⟨1000, .failure, .response true 200 none "" "", .ok sampleExtract⟩
      [("http://example.com/", (0, samplePage))] =
      ⟨.ok samplePage, [("http://example.com/", (0, samplePage))], false, false⟩ ∧
    browseUrl sampleU none true sampleEnv [("http://example.com/", (0, samplePage))] =
      browseFetch sampleU none true sampleEnv
        [("http://example.com/", (0, samplePage))] := by
  constructor
  · exact c7_cache_ttl.1 sampleU none
      ⟨1000, .failure, .response true 200 none "" "", .ok sampleExtract⟩
      [("http://example.com/", (0, samplePage))] 0 samplePage (Or.inl rfl)
      (by decide) (by decide) (by decide)
  · exact (c7_cache_ttl.2 sampleU none sampleEnv
      [("http://example.com/", (0, samplePage))] 0 samplePage (Or.inl rfl)
      (by decide) (by decide) (by decide)).1

/-- Claim C10: `browse_url` is atomic with respect to the cache — on
any thrown error the cache is exactly the input cache; with caching not
requested the cache is never touched; and a successful run leaves the
cache unchanged (a fresh hit) or stores exactly the completed result
under the URL key (the only write, performed after the analysis is
fully constructed). -/
theorem c10_cache_atomic :
    ∀ (u : UrlParts) (q : Option String) (c : Bool) (env : BrowseEnv) (st : Cache),
      (∀ e, (browseUrl u q c env st).result = .error e →
        (browseUrl u q c env st).cache = st) ∧
      (c = false → (browseUrl u q c env st).cache = st) ∧
      (∀ r, (browseUrl u q c env st).result = .ok r →
        (browseUrl u q c env st).cache = st ∨
        (browseUrl u q c env st).cache = cacheSet u.href (env.now, r) st) := by
  intro u q c env st
  refine ⟨?_, ?_, ?_⟩
  · intro e he
    rcases browseUrl_cache_cases u q c env st with h | ⟨_, r, hok, _⟩
    · exact h
    · rw [he] at hok
      simp at hok
  · intro hc
    rcases browseUrl_cache_cases u q c env st with h | ⟨hc', _⟩
    · exact h
    · rw [hc] at hc'
      simp at hc'
  · intro r hr
    rcases browseUrl_cache_cases u q c env st with h | ⟨_, r', hok, hcache⟩
    · exact Or.inl h
    · rw [hr] at hok
      simp only [Except.ok.injEq] at hok
      subst hok
      exact Or.inr hcache

/-- Witness for C10: a run refused at the scheme check (an `ftp:` URL)
throws and leaves an empty cache empty. -/
theorem c10_cache_atomic_witness :
    (browseUrl ⟨"ftp:", "example.com", "/", "ftp://example.com/"⟩ none true
      sampleEnv []).cache = [] :=
  (c10_cache_atomic ⟨"ftp:", "example.com", "/", "ftp://example.com/"⟩ none true
    sampleEnv []).1 .unsupportedScheme rfl

end ContentAgent

namespace ContentAgent

/-- The number of pieces `split(/\s+/)` produces is one more than the
number of whitespace separator runs it consumes, for any loop state. -/
theorem swGo_length (cs : List Char) :
    ∀ (inSep : Bool) (acc : List Char),
      (swGo cs inSep acc).length = 1 + srGo cs inSep := by
  induction cs with
  | nil =>
    intro inSep acc
    simp [swGo, srGo]
  | cons c cs ih =>
    intro inSep acc
    cases inSep with
    | false =>
      by_cases hw : isWsChar c <;> simp [swGo, srGo, hw, ih] <;> try omega
    | true =>
      by_cases hw : isWsChar c <;> simp [swGo, srGo, hw, ih] <;> try omega

/-- One unfolding step of the separator-run counter. -/
theorem srGo_cons (c : Char) (cs : List Char) (inSep : Bool) :
    srGo (c :: cs) inSep =
      if isWsChar c then
        (if inSep then srGo cs true else 1 + srGo cs true)
      else srGo cs false := rfl

/-- One unfolding step of the token counter. -/
theorem tcGo_cons (c : Char) (cs : List Char) (inTok : Bool) :
    tcGo (c :: cs) inTok =
      if isWsChar c then tcGo cs false
      else if inTok then tcGo cs true
      else 1 + tcGo cs true := rfl

/-- The trailing-whitespace test ignores all but the last character. -/
theorem trailWs_cons2 (c c2 : Char) (cs2 : List Char) :
    trailWs (c :: c2 :: cs2) = trailWs (c2 :: cs2) := rfl

/-- The leading-whitespace test reads the first character. -/
theorem leadWs_cons (c : Char) (cs : List Char) :
    leadWs (c :: cs) = isWsChar c := rfl

/-- The joint invariant tying separator-run counting to token counting:
for a nonempty string, starting inside a separator the pieces exceed
the tokens by the trailing-whitespace indicator; starting inside a
token the tokens counted from the token state lag by the
leading-whitespace indicator; and from the initial state the separator
runs exceed the tokens minus one by both boundary indicators. -/
theorem sr_tc_rel (cs : List Char) :
    cs ≠ [] →
    (srGo cs true + 1 = tcGo cs false + (if trailWs cs then 1 else 0)) ∧
    (tcGo cs true + 1 = tcGo cs false + (if leadWs cs then 1 else 0)) ∧
    (srGo cs false + 1 =
      tcGo cs false + (if leadWs cs then 1 else 0) +
        (if trailWs cs then 1 else 0)) := by
  induction cs with
  | nil => intro h; exact absurd rfl h
  | cons c cs ih =>
    intro _
    cases cs with
    | nil =>
      by_cases hw : isWsChar c <;>
        refine ⟨?_, ?_, ?_⟩ <;> simp [srGo, tcGo, leadWs, trailWs, hw]
    | cons c2 cs2 =>
      obtain ⟨ih1, ih2, ih3⟩ := ih (by simp)
      by_cases hw : isWsChar c <;> by_cases hw2 : isWsChar c2 <;>
        refine ⟨?_, ?_, ?_⟩ <;>
          simp [srGo_cons, tcGo_cons, trailWs_cons2, leadWs_cons, hw, hw2]
            at ih1 ih2 ih3 ⊢ <;>
          omega

/-- The character list of a nonempty string is nonempty. -/
theorem data_ne_nil_of_ne_empty {s : String} (h : s ≠ "") : s.data ≠ [] := by
  intro hnil
  apply h
  cases s with
  | mk data =>
    subst hnil
    rfl

/-- For a nonempty main text, the source's word count equals the
whitespace-delimited token count plus one for a leading-whitespace run
and one for a trailing-whitespace run. -/
theorem wordCount_eq_tokens (s : String) (h : s ≠ "") :
    wordCountJs s = tokenRuns s.data +
      (if leadWs s.data then 1 else 0) + (if trailWs s.data then 1 else 0) := by
  have hd : s.data ≠ [] := data_ne_nil_of_ne_empty h
  unfold wordCountJs
  rw [if_pos h]
  unfold jsSplitWs tokenRuns
  rw [swGo_length]
  have hrel := (sr_tc_rel s.data hd).2.2
  omega

end ContentAgent

namespace ContentAgent

/-- Claim C8 (counterexample): for the main text `" a"` the returned
word count is 2, but the number of whitespace-delimited tokens is 1 —
leading whitespace does change the count. -/
theorem c8_counterexample :
    wordCountJs " a" = 2 ∧ tokenRuns (" a" : String).data = 1 := by
  decide

/-- Claim C8 (amended): for every nonempty main text, the wordCount
field equals the number of whitespace-delimited tokens plus one if the
text begins with whitespace and plus one if it ends with whitespace
(so leading or trailing whitespace each inflate the count by one);
it equals 0 when the main text is empty; and the wordCount field of a
successfully returned analysis is exactly this function of its main
text. -/
theorem c8_word_count :
    (∀ s : String, s ≠ "" →
      wordCountJs s = tokenRuns s.data +
        (if leadWs s.data then 1 else 0) + (if trailWs s.data then 1 else 0)) ∧
    wordCountJs "" = 0 ∧
    (∀ (u : UrlParts) (q : Option String) (c : Bool) (env : BrowseEnv)
       (st : Cache) (r : PageResult),
      (browseFetch u q c env st).result = .ok r →
      r.wordCount = wordCountJs r.mainText) := by
  refine ⟨wordCount_eq_tokens, rfl, ?_⟩
  intro u q c env st r
  unfold browseFetch
  split
  · intro h
    simp at h
  · split
    · intro h
      simp at h
    · split
      · intro h
        simp at h
      · split
        · intro h
          simp at h
        · split
          · intro h
            simp at h
          · split
            · intro h
              simp at h
            · intro h
              simp only [Except.ok.injEq] at h
              subst h
              rfl

/-- Witness for C8 on `"a b"`: no boundary whitespace, so the word
count is exactly the token count. -/
theorem c8_word_count_witness :
    ("a b" : String) ≠ "" ∧
    wordCountJs "a b" = tokenRuns ("a b" : String).data +
      (if leadWs ("a b" : String).data then 1 else 0) +
      (if trailWs ("a b" : String).data then 1 else 0) :=
  ⟨by decide, c8_word_count.1 "a b" (by decide)⟩

/-- An upper-case letter is lowered to the character 32 code points up. -/
theorem toNat_charToLower_upper {c : Char} (h1 : 65 ≤ c.toNat) (h2 : c.toNat ≤ 90) :
    (charToLower c).toNat = c.toNat + 32 := by
  have key : ∀ n : Nat, 65 ≤ n → n ≤ 90 → (Char.ofNat (n + 32)).toNat = n + 32 := by
    intro n hn1 hn2
    have hv : (n + 32).isValidChar := Or.inl (by omega)
    simp [Char.ofNat, Char.ofNatAux, Char.toNat, dif_pos hv, UInt32.toNat,
      BitVec.toNat_ofNatLt]
  unfold charToLower
  rw [if_pos (by rw [decide_eq_true h1, decide_eq_true h2]; rfl)]
  exact key c.toNat h1 h2

/-- Lower-casing a character twice equals lower-casing it once. -/
theorem charToLower_idem (c : Char) :
    charToLower (charToLower c) = charToLower c := by
  by_cases h : 65 ≤ c.toNat ∧ c.toNat ≤ 90
  · have ht := toNat_charToLower_upper h.1 h.2
    apply charToLower_eq_self
    omega
  · simp only [charToLower_eq_self h]

/-- Lower-casing a string twice equals lower-casing it once. -/
theorem jsToLower_idem (l : List Char) : jsToLower (jsToLower l) = jsToLower l := by
  unfold jsToLower
  induction l with
  | nil => rfl
  | cons c cs ih => simp [charToLower_idem c, ih]

/-- Claim C9: the guard is case-insensitive — classifying any hostname
equals classifying its lower-cased form, and in particular the
upper-cased literals `LOCALHOST`, `127.0.0.1` and `Foo.LOCAL` are all
forbidden. -/
theorem c9_guard_case_insensitive :
    (∀ h : String, isPrivateHostname h = isPrivateHostname (strToLower h)) ∧
    isPrivateHostname "LOCALHOST" = true ∧
    isPrivateHostname "127.0.0.1" = true ∧
    isPrivateHostname "Foo.LOCAL" = true := by
  refine ⟨?_, by decide, by decide, by decide⟩
  intro h
  show privCore (jsToLower h.data) = privCore (jsToLower (strToLower h).data)
  have hdata : (strToLower h).data = jsToLower h.data := rfl
  rw [hdata, jsToLower_idem]

end ContentAgent
